import Mathlib

/-!
Verification of the MongoDB Conduit connector core against its
natural-language specification.  The Go sources are shallowly embedded:
pure fragments become Lean functions, the MongoDB engine (collection
queries, change streams) is modelled by explicit state passing, and
fallible Go code returns `Except`/`Option`.
-/

namespace Mongo

/-- Model of a JSON / structured-data value (Go `any` after
`encoding/json` decoding, and `sdk.StructuredData` entries). -/
inductive Json where
  | null : Json
  | bool (b : Bool) : Json
  | num (q : Rat) : Json
  | str (s : String) : Json
  | arr (a : List Json) : Json
  | obj (o : List (String × Json)) : Json

/-- Model of a BSON value as marshalled to the MongoDB engine.  It is the
JSON model extended with the typed object-id (`primitive.ObjectID`,
modelled as its 12 bytes). -/
inductive BVal where
  | null : BVal
  | bool (b : Bool) : BVal
  | num (q : Rat) : BVal
  | str (s : String) : BVal
  | objectId (bytes : List Nat) : BVal
  | arr (a : List BVal) : BVal
  | obj (o : List (String × BVal)) : BVal

mutual

/-- Identity embedding of a JSON value into the BSON value model
(no object-id conversion anywhere): "used unchanged". -/
def Json.toBVal : Json → BVal
  | .null => .null
  | .bool b => .bool b
  | .num q => .num q
  | .str s => .str s
  | .arr a => .arr (Json.listToBVal a)
  | .obj o => .obj (Json.objToBVal o)

def Json.listToBVal : List Json → List BVal
  | [] => []
  | x :: xs => x.toBVal :: Json.listToBVal xs

def Json.objToBVal : List (String × Json) → List (String × BVal)
  | [] => []
  | (k, v) :: xs => (k, v.toBVal) :: Json.objToBVal xs

end

/-! ### Hex decoding and `primitive.ObjectIDFromHex`

Go's `primitive.ObjectIDFromHex` requires a 24-character string and a
successful `hex.DecodeString`. -/

/-- Value of one hex digit (`encoding/hex` accepts `0-9`, `a-f`, `A-F`). -/
def hexDigit (c : Char) : Option Nat :=
  if '0' ≤ c ∧ c ≤ '9' then some (c.toNat - 48)
  else if 'a' ≤ c ∧ c ≤ 'f' then some (c.toNat - 97 + 10)
  else if 'A' ≤ c ∧ c ≤ 'F' then some (c.toNat - 65 + 10)
  else none

/-- Model of `hex.DecodeString`: pairs of hex digits to bytes. -/
def hexDecode : List Char → Option (List Nat)
  | [] => some []
  | c1 :: c2 :: rest => do
    let hi ← hexDigit c1
    let lo ← hexDigit c2
    let bs ← hexDecode rest
    some ((hi * 16 + lo) :: bs)
  | _ => none

/-- Model of `primitive.ObjectIDFromHex`: a valid 24-character hex string
yields the 12 object-id bytes, anything else fails. -/
def objectIDFromHex (s : String) : Option (List Nat) :=
  if s.length = 24 then hexDecode s.data else none

/-- Model of `codec.StringObjectIDCodec.EncodeValue` applied to a string:
a string that is a valid hex representation of an object-id is written as
the typed object-id, any other string is written unchanged. -/
def stringObjectIDEncode (s : String) : BVal :=
  match objectIDFromHex s with
  | some oid => .objectId oid
  | none => .str s

/-- Model of `snapshot.processPositionElement`
(`source/iterator/snapshot.go`): tries to parse the position element as
an object-id; on success returns the typed object-id, otherwise returns
the provided value without any modification. -/
def processPositionElement (v : Json) : BVal :=
  match v with
  | .str s =>
    match objectIDFromHex s with
    | some oid => .objectId oid
    | none => .str s
  | v => v.toBVal

mutual

/-- Model of the MongoDB driver marshalling a value with the connector's
codec registry installed (`RegisterDefaultEncoder(reflect.String,
codec.StringObjectIDCodec{})` in `destination.go`): every string value,
at any depth, goes through `stringObjectIDEncode`. -/
def bsonEncode : Json → BVal
  | .null => .null
  | .bool b => .bool b
  | .num q => .num q
  | .str s => stringObjectIDEncode s
  | .arr a => .arr (bsonEncodeList a)
  | .obj o => .obj (bsonEncodeObj o)

def bsonEncodeList : List Json → List BVal
  | [] => []
  | x :: xs => bsonEncode x :: bsonEncodeList xs

def bsonEncodeObj : List (String × Json) → List (String × BVal)
  | [] => []
  | (k, v) :: xs => (k, bsonEncode v) :: bsonEncodeObj xs

end

/-- Marshalling of a `bson.M` document through the registry: values are
encoded, keys are kept. -/
def bsonEncodeDoc (kvs : List (String × Json)) : List (String × BVal) :=
  bsonEncodeObj kvs

/-! ### Base64 (`encoding/base64` StdEncoding, used by `encoding/json`
for `[]byte` / `bson.Raw` fields) -/

/-- Standard base64 alphabet character for a sextet. -/
def b64Char (n : Nat) : Char :=
  if n < 26 then Char.ofNat (65 + n)
  else if n < 52 then Char.ofNat (97 + (n - 26))
  else if n < 62 then Char.ofNat (48 + (n - 52))
  else if n = 62 then '+'
  else '/'

/-- Index of a standard base64 alphabet character. -/
def b64Index (c : Char) : Option Nat :=
  if 'A' ≤ c ∧ c ≤ 'Z' then some (c.toNat - 65)
  else if 'a' ≤ c ∧ c ≤ 'z' then some (c.toNat - 97 + 26)
  else if '0' ≤ c ∧ c ≤ '9' then some (c.toNat - 48 + 52)
  else if c = '+' then some 62
  else if c = '/' then some 63
  else none

/-- Base64 encoding of a byte list, with `=` padding. -/
def b64Encode : List Nat → List Char
  | b1 :: b2 :: b3 :: rest =>
    b64Char (b1 / 4) :: b64Char (b1 % 4 * 16 + b2 / 16) ::
    b64Char (b2 % 16 * 4 + b3 / 64) :: b64Char (b3 % 64) :: b64Encode rest
  | [b1, b2] => [b64Char (b1 / 4), b64Char (b1 % 4 * 16 + b2 / 16), b64Char (b2 % 16 * 4), '=']
  | [b1] => [b64Char (b1 / 4), b64Char (b1 % 4 * 16), '=', '=']
  | [] => []

/-- Base64 decoding (padding allowed only in the final 4-character
group, as in Go's `StdEncoding`). -/
def b64Decode : List Char → Option (List Nat)
  | [] => some []
  | c1 :: c2 :: c3 :: c4 :: rest =>
    match b64Index c1, b64Index c2 with
    | some s1, some s2 =>
      if c3 = '=' then
        if c4 = '=' ∧ rest = [] then some [s1 * 4 + s2 / 16] else none
      else
        match b64Index c3 with
        | some s3 =>
          if c4 = '=' then
            if rest = [] then some [s1 * 4 + s2 / 16, s2 % 16 * 16 + s3 / 4] else none
          else
            match b64Index c4 with
            | some s4 =>
              (b64Decode rest).map
                (fun bs => (s1 * 4 + s2 / 16) :: (s2 % 16 * 16 + s3 / 4) :: (s3 % 4 * 64 + s4) :: bs)
            | none => none
        | none => none
    | _, _ => none
  | _ => none

/-! ### Configuration (`config/config.go`) -/

/-- The five authentication mechanisms, as listed in `config.go`. -/
def validAuthMechanisms : List String :=
  ["SCRAM-SHA-256", "SCRAM-SHA-1", "MONGODB-CR", "MONGODB-AWS", "MONGODB-X509"]

/-- Model of `AuthMechanism.IsValid`. -/
def authMechanismIsValid (am : String) : Bool :=
  am == "SCRAM-SHA-256" || am == "SCRAM-SHA-1" || am == "MONGODB-CR" ||
  am == "MONGODB-AWS" || am == "MONGODB-X509"

/-- Model of Go's `strings.ToUpper` on the ASCII range. -/
def goToUpper (s : String) : String :=
  ⟨s.data.map Char.toUpper⟩

/-- Model of the `auth.mechanism` handling inside `config.Parse`: the raw
value is upper-cased, and parsing fails with `InvalidAuthMechanismError`
exactly when the result is non-empty and not a valid mechanism.  On
success the stored mechanism is returned. -/
def parseAuthMechanism (raw : String) : Except String String :=
  let mech := goToUpper raw
  if mech ≠ "" ∧ authMechanismIsValid mech = false then
    .error "invalid auth mechanism"
  else
    .ok mech

/-! ### Source read loop (`source.go`, `Source.Read`) -/

/-- Outcome of one `Source.Read` call: a record, the distinguished
`sdk.ErrBackoffRetry` sentinel, or an ordinary error. -/
inductive ReadOutcome (α : Type) where
  | record (r : α) : ReadOutcome α
  | backoffRetry : ReadOutcome α
  | fail (msg : String) : ReadOutcome α
deriving DecidableEq

/-- Model of `Source.Read`: `HasNext` error is wrapped and surfaced;
`HasNext = false` yields the `BackoffRetry` sentinel; otherwise `Next`
is called, its error wrapped and surfaced, its record returned. -/
def sourceRead {α : Type} (hasNext : Except String Bool) (next : Except String α) :
    ReadOutcome α :=
  match hasNext with
  | .error e => .fail ("has next: " ++ e)
  | .ok false => .backoffRetry
  | .ok true =>
    match next with
    | .error e => .fail ("get next record: " ++ e)
    | .ok r => .record r

/-! ### Position codec (`source/iterator/position.go`)

`position` is a JSON-marshalled struct with fields `mode`,
`resumeToken,omitempty` (a `bson.Raw`, i.e. bytes, serialized by
`encoding/json` as base64), `element,omitempty` and
`maxElement,omitempty` (Go `any`, i.e. arbitrary JSON values).  The
model is at the JSON-document granularity: `marshalPosition` produces
the JSON object `json.Marshal` would serialize, `unmarshalPosition`
parses it back the way `json.Unmarshal` would. -/

/-- The `position` struct.  `V` is the type of ordering-field values
(`Json` at the serialization boundary, a linearly ordered type inside
the snapshot model). -/
structure Pos (V : Type) where
  mode : String
  resumeToken : Option (List Nat) := none
  element : Option V := none
  maxElement : Option V := none
deriving DecidableEq

/-- `modeSnapshot` constant. -/
def modeSnapshot : String := "snapshot"

/-- `modeCDC` constant. -/
def modeCDC : String := "cdc"

/-- First-match association-list lookup (Go JSON objects and
`map[string]string` accesses; keys of marshalled structs are unique). -/
def lookupKey (kvs : List (String × Json)) (k : String) : Option Json :=
  (kvs.find? (fun kv => kv.1 == k)).map (·.2)

/-- Model of `position.marshalSDKPosition`: serialize to a JSON object,
fields in struct order, `omitempty` fields dropped when nil (for the
`bson.Raw` token also when zero-length). -/
def marshalPosition (p : Pos Json) : Json :=
  .obj ([("mode", .str p.mode)]
    ++ (match p.resumeToken with
        | some t => if t = [] then [] else [("resumeToken", .str ⟨b64Encode t⟩)]
        | none => [])
    ++ (match p.element with | some e => [("element", e)] | none => [])
    ++ (match p.maxElement with | some e => [("maxElement", e)] | none => []))

/-- `json.Unmarshal` of an object field into a `string` field: missing
keys and JSON `null` leave the zero value. -/
def parseModeField : Option Json → Except String String
  | none => .ok ""
  | some (.str s) => .ok s
  | some .null => .ok ""
  | some _ => .error "unmarshal position: mode"

/-- `json.Unmarshal` of an object field into a `bson.Raw` (`[]byte`)
field: missing keys and JSON `null` leave nil, a string is base64
decoded, anything else is an error. -/
def parseTokenField : Option Json → Except String (Option (List Nat))
  | none => .ok none
  | some .null => .ok none
  | some (.str s) =>
    match b64Decode s.data with
    | some bytes => .ok (some bytes)
    | none => .error "unmarshal position: resume token"
  | some _ => .error "unmarshal position: resume token"

/-- `json.Unmarshal` of an object field into an `any` field: missing
keys and JSON `null` leave the nil interface. -/
def parseAnyField : Option Json → Option Json
  | none => none
  | some .null => none
  | some v => some v

/-- Model of `parsePosition` on a non-nil SDK position: `json.Unmarshal`
into the `position` struct.  Unknown keys are ignored, missing keys
leave the zero value, JSON `null` leaves a field untouched (so an `any`
field stays nil), the resume token must be a base64 string. -/
def unmarshalPosition (j : Json) : Except String (Pos Json) :=
  match j with
  | .null => .ok { mode := "" }
  | .obj kvs => do
    let mode ← parseModeField (lookupKey kvs "mode")
    let tok ← parseTokenField (lookupKey kvs "resumeToken")
    .ok { mode := mode, resumeToken := tok,
          element := parseAnyField (lookupKey kvs "element"),
          maxElement := parseAnyField (lookupKey kvs "maxElement") }
  | _ => .error "unmarshal position"

/-- The positions the system emits: `element`/`maxElement` are decoded
BSON values and never a non-nil interface holding JSON `null`, and a
resume token, when present, is a non-empty byte string. -/
def EmittablePos (p : Pos Json) : Prop :=
  p.element ≠ some .null ∧ p.maxElement ≠ some .null ∧
  (∀ t, p.resumeToken = some t → t ≠ [] ∧ ∀ b ∈ t, b < 256)

/-! ### Destination writer (`destination/writer/writer.go`) -/

/-- `delete(payload, idFieldName)` on a parsed JSON map. -/
def eraseKey (kvs : List (String × Json)) (k : String) : List (String × Json) :=
  kvs.filter (fun kv => kv.1 ≠ k)

/-- A single driver call issued by the writer, with the documents as the
driver marshals them (through the connector's codec registry). -/
inductive WriteOp where
  | insertOne (doc : List (String × BVal)) : WriteOp
  | updateOne (filter upd : List (String × BVal)) : WriteOp
  | deleteOne (filter : List (String × BVal)) : WriteOp

/-- Model of `json.Unmarshal(bytes, &structuredData)`: the record
key/payload bytes parse to a JSON map, anything else is an error. -/
def unmarshalStructured (j : Json) (ctxMsg : String) : Except String (List (String × Json)) :=
  match j with
  | .obj kvs => .ok kvs
  | _ => .error ctxMsg

/-- Model of `Writer.insert`: parse `payloadAfter` into a map and issue
`InsertOne` with it. -/
def writerInsert (payloadAfter : Json) : Except String WriteOp := do
  let payload ← unmarshalStructured payloadAfter "unmarshal payload"
  .ok (.insertOne (bsonEncodeDoc payload))

/-- Model of `Writer.update`: parse `payloadAfter` into a map, delete its
`_id` field, parse the record key into a filter map, and issue
`UpdateOne(filter, {$set: payload})`. -/
def writerUpdate (key payloadAfter : Json) : Except String WriteOp := do
  let payload ← unmarshalStructured payloadAfter "parse payload"
  let payload := eraseKey payload "_id"
  let keys ← unmarshalStructured key "parse keys"
  .ok (.updateOne (bsonEncodeDoc keys) [("$set", .obj (bsonEncodeDoc payload))])

/-- Model of `Writer.delete`: parse the record key into a filter map and
issue `DeleteOne(filter)`. -/
def writerDelete (key : Json) : Except String WriteOp := do
  let keys ← unmarshalStructured key "parse keys"
  .ok (.deleteOne (bsonEncodeDoc keys))

/-! ### Records (`opencdc.Record` as produced by the source iterators) -/

/-- Record operation tag. -/
inductive Op where
  | snapshot | create | update | delete
deriving DecidableEq

/-- The parts of an emitted record the iterator subsystem determines:
operation, position, key and after-payload. -/
structure Rec (V : Type) where
  op : Op
  pos : Pos V
  key : List (String × Json)
  payloadAfter : Option Json

/-! ### Snapshot iterator (`source/iterator/snapshot.go`, current
version)

The engine is modelled by explicit state: a collection is the list of
its documents, each with the value of the ordering field (of a linearly
ordered type `V`, modelling the BSON comparison order the server uses),
the `_id` value and the full document body.  `Find` filters, sorts and
limits that list. -/

/-- A document, as the snapshot iterator consumes it. -/
structure MDoc (V : Type) where
  ord : V
  id : Json := .null
  body : Json := .null

/-- Comparison of documents by their ordering-field value. -/
def docLE {V : Type} [LinearOrder V] (a b : MDoc V) : Prop := a.ord ≤ b.ord

instance {V : Type} [LinearOrder V] : DecidableRel (@docLE V _) :=
  fun a b => inferInstanceAs (Decidable (a.ord ≤ b.ord))

instance {V : Type} [LinearOrder V] : IsTotal (MDoc V) (@docLE V _) :=
  ⟨fun a b => le_total a.ord b.ord⟩

instance {V : Type} [LinearOrder V] : IsTrans (MDoc V) (@docLE V _) :=
  ⟨fun _ _ _ h1 h2 => le_trans h1 h2⟩

/-- Whether a document passes the `loadBatch` filter
`{orderingField: {$lte: maxElement?, $gt: element?}}` (each bound only
present when the corresponding value is non-nil). -/
def batchFilter {V : Type} [LinearOrder V] (gtElem lteMax : Option V) (d : MDoc V) : Bool :=
  (match lteMax with | some m => decide (d.ord ≤ m) | none => true) &&
  (match gtElem with | some e => decide (e < d.ord) | none => true)

/-- Model of the `Find` call in `snapshot.loadBatch`: filter by the
ordering-field bounds, sort ascending by the ordering field, limit to
the batch size. -/
def findBatch {V : Type} [LinearOrder V] (coll : List (MDoc V))
    (gtElem lteMax : Option V) (limit : Nat) : List (MDoc V) :=
  (List.insertionSort docLE (coll.filter (batchFilter gtElem lteMax))).take limit

/-- Model of `getMaxFieldValue`: `none` models the swallowed
`errNoDocuments` on an empty collection, otherwise the ordering-field
value of the first document of a descending sort with limit 1, i.e. the
maximum. -/
def getMaxFieldValue {V : Type} [LinearOrder V] (coll : List (MDoc V)) : Option V :=
  (coll.map (·.ord)).max?

/-- The snapshot iterator state (`snapshot` struct).  The Go cursor is
modelled by the not-yet-delivered remainder of the current batch
(`cursor`, `none` before the first `loadBatch`) plus the document the
last `TryNext` advanced to (`current`), which `Decode` reads. -/
structure Snap (V : Type) where
  batchSize : Nat
  posElement : Option V
  maxValue : Option V
  resumeToken : Option (List Nat) := none
  polling : Bool := false
  cursor : Option (List (MDoc V)) := none
  current : Option (MDoc V) := none

/-- Model of `newSnapshot`: adopt `position.MaxElement` when present,
otherwise freeze the current maximum of the ordering field (nil when
the collection is empty); carry the resume token through. -/
def newSnapshot {V : Type} [LinearOrder V] (coll : List (MDoc V)) (batchSize : Nat)
    (position : Option (Pos V)) (resumeToken : Option (List Nat)) : Snap V :=
  let maxV : Option V :=
    match position with
    | some p =>
      match p.maxElement with
      | some m => some m
      | none => getMaxFieldValue coll
    | none => getMaxFieldValue coll
  { batchSize := batchSize
    posElement := position.bind (·.element)
    maxValue := maxV
    resumeToken := resumeToken
    polling := false }

/-- Model of `newPollingSnapshot`: when there is no position or it is a
snapshot-mode one, start from a fresh cdc-mode position whose element is
the current ordering-field maximum; a cdc-mode position is kept as is.
No ordering-field maximum is frozen and the polling flag is set. -/
def newPollingSnapshot {V : Type} [LinearOrder V] (coll : List (MDoc V)) (batchSize : Nat)
    (position : Option (Pos V)) : Snap V :=
  let pos : Pos V :=
    match position with
    | none => { mode := modeCDC, element := getMaxFieldValue coll }
    | some p =>
      if p.mode = modeSnapshot then { mode := modeCDC, element := getMaxFieldValue coll }
      else p
  { batchSize := batchSize
    posElement := pos.element
    maxValue := none
    resumeToken := none
    polling := true }

/-- Model of `snapshot.hasNext` against the current collection contents:
`TryNext` on a non-exhausted cursor advances and succeeds; otherwise a
new batch is loaded with the current position element and the frozen
maximum, and `TryNext` is retried on it. -/
def Snap.hasNext {V : Type} [LinearOrder V] (s : Snap V) (coll : List (MDoc V)) :
    Bool × Snap V :=
  match s.cursor with
  | some (d :: rest) => (true, { s with cursor := some rest, current := some d })
  | _ =>
    match findBatch coll s.posElement s.maxValue s.batchSize with
    | [] => (false, { s with cursor := some [], current := none })
    | d :: rest => (true, { s with cursor := some rest, current := some d })

/-- Model of `snapshot.next`: decode the current cursor document, build
the position (mode `cdc` when polling, else `snapshot`; element = the
document's ordering-field value; the frozen maximum and the resume token
carried through), store it, and build the record (`create` when polling,
else `snapshot`) keyed by the document's `_id` with the document as
after-payload. -/
def Snap.next {V : Type} [LinearOrder V] (s : Snap V) : Except String (Rec V × Snap V) :=
  match s.current with
  | none => .error "decode element"
  | some d =>
    let mode := if s.polling then modeCDC else modeSnapshot
    let pos : Pos V :=
      { mode := mode
        element := some d.ord
        maxElement := s.maxValue
        resumeToken := s.resumeToken }
    let r : Rec V :=
      { op := if s.polling then Op.create else Op.snapshot
        pos := pos
        key := [("_id", d.id)]
        payloadAfter := some d.body }
    .ok (r, { s with posElement := some d.ord })

/-- The driver loop of the snapshot iterator: repeatedly `hasNext` then
`next`, stopping when `hasNext` is false.  One collection state is
supplied per `hasNext` call (the collection may change between engine
round trips); the list doubles as fuel. -/
def snapRun {V : Type} [LinearOrder V] : List (List (MDoc V)) → Snap V → List (Rec V)
  | [], _ => []
  | coll :: rest, s =>
    match s.hasNext coll with
    | (false, _) => []
    | (true, s1) =>
      match s1.next with
      | .error _ => []
      | .ok (r, s2) => r :: snapRun rest s2

/-! ### Change-stream (CDC) iterator (`source/iterator/cdc.go`) -/

/-- A change-stream event, with the fields the iterator consumes. -/
structure CSEvent where
  id : List Nat
  documentKey : List (String × Json) := []
  operationType : String
  fullDocument : List (String × Json) := []
  collection : String := ""

/-- Model of `changeStreamEvent.toRecord`: cdc-mode position whose
resume token is the event id; operation mapped insert→create,
update→update, delete→delete (anything else is
`errUnsupportedOperationType`); key is the event's `documentKey`;
after-payload is the full document for insert/update and absent for
delete. -/
def csEventToRecord {V : Type} (e : CSEvent) : Except String (Rec V) :=
  let pos : Pos V := { mode := modeCDC, resumeToken := some e.id }
  match e.operationType with
  | "insert" =>
    .ok { op := Op.create, pos := pos, key := e.documentKey,
          payloadAfter := some (.obj e.fullDocument) }
  | "update" =>
    .ok { op := Op.update, pos := pos, key := e.documentKey,
          payloadAfter := some (.obj e.fullDocument) }
  | "delete" =>
    .ok { op := Op.delete, pos := pos, key := e.documentKey, payloadAfter := none }
  | _ => .error "unsupported operation type"

/-- The options `createChangeStream` passes to `collection.Watch`. -/
structure CSOpts where
  fullDocument : String := "updateLookup"
  resumeAfter : Option (List Nat) := none
deriving DecidableEq

/-- An open change stream: the options it was created with, the resume
token `ResumeToken()` reports after creation, and the events it will
deliver (`pending`, with `current` the event the last `TryNext`
advanced to). -/
structure ChangeStream where
  resumeAfter : Option (List Nat)
  token : Option (List Nat)
  pending : List CSEvent
  current : Option CSEvent := none

/-- The engine's `collection.Watch`: given the change-stream options it
either fails with an error message or yields the stream's pending
events and its initial resume token. -/
def Watcher : Type := CSOpts → Except String (List CSEvent × Option (List Nat))

/-- Model of `createChangeStream`: always `UpdateLookup`; resume from
`position.ResumeToken` when the position is non-nil and carries one,
otherwise start at the current server time (no `resumeAfter`); wrap a
`Watch` failure with the collection context. -/
def createChangeStream {V : Type} (watch : Watcher) (position : Option (Pos V)) :
    Except String ChangeStream :=
  let opts : CSOpts :=
    { resumeAfter :=
        match position with
        | some p => p.resumeToken
        | none => none }
  match watch opts with
  | .error e => .error ("create change stream on the collection: " ++ e)
  | .ok (evs, tok) =>
    .ok { resumeAfter := opts.resumeAfter, token := tok, pending := evs }

/-- The cdc iterator: a wrapper around its change stream. -/
structure CDC where
  changeStream : ChangeStream

/-- Model of `newCDC`: create the change stream, wrapping errors. -/
def newCDC {V : Type} (watch : Watcher) (position : Option (Pos V)) :
    Except String CDC :=
  match createChangeStream watch position with
  | .error e => .error ("create change stream: " ++ e)
  | .ok cs => .ok { changeStream := cs }

/-- Model of `cdc.hasNext` (`changeStream.TryNext`): advance to the next
pending event when there is one. -/
def CDC.hasNext (c : CDC) : Bool × CDC :=
  match c.changeStream.pending with
  | [] => (false, c)
  | e :: rest =>
    (true, { changeStream := { c.changeStream with pending := rest, current := some e } })

/-- Model of `cdc.next`: decode the event `TryNext` advanced to and
convert it to a record. -/
def CDC.next {V : Type} (c : CDC) : Except String (Rec V) :=
  match c.changeStream.current with
  | none => .error "decode change stream event"
  | some e =>
    match @csEventToRecord V e with
    | .error e2 => .error ("convert event to record: " ++ e2)
    | .ok r => .ok r

/-! ### Combined iterator (`source/iterator/combined.go`, current
version) -/

/-- Go `strings.Contains`. -/
def strContains (s pat : String) : Bool :=
  decide (pat.data <:+: s.data)

/-- The Cosmos-for-Mongo engine-limitation marker
(`matchProjectStageErrMessage`). -/
def matchProjectStageErrMessage : String :=
  "Change stream must be followed by a match and then a project stage"

/-- The combined iterator: three nullable sub-iterators. -/
structure Combined (V : Type) where
  snapshot : Option (Snap V) := none
  pollingSnapshot : Option (Snap V) := none
  cdc : Option CDC := none

/-- The snapshot-construction step at the end of `NewCombined`: when the
snapshot flag is set and there is no position or it is snapshot-mode,
construct the snapshot sub-iterator, passing the change stream's current
resume token when a cdc iterator exists. -/
def combinedAddSnapshot {V : Type} [LinearOrder V] (c : Combined V)
    (coll : List (MDoc V)) (batchSize : Nat) (snapshotFlag : Bool)
    (position : Option (Pos V)) : Combined V :=
  if snapshotFlag && (match position with
      | none => true
      | some p => decide (p.mode = modeSnapshot)) then
    let resumeToken : Option (List Nat) :=
      match c.cdc with
      | some cd => cd.changeStream.token
      | none => none
    { c with snapshot := some (newSnapshot coll batchSize position resumeToken) }
  else c

/-- Model of `NewCombined` (after position parsing): always attempt to
open the change stream first; on failure, errors carrying the
engine-limitation marker select the polling snapshot fallback while any
other error aborts construction; finally add the snapshot sub-iterator
when called for. -/
def NewCombined {V : Type} [LinearOrder V] (watch : Watcher) (coll : List (MDoc V))
    (batchSize : Nat) (snapshotFlag : Bool) (position : Option (Pos V)) :
    Except String (Combined V) :=
  match newCDC watch position with
  | .error e =>
    if strContains e matchProjectStageErrMessage = false then
      .error ("init cdc iterator: " ++ e)
    else
      .ok (combinedAddSnapshot
        { pollingSnapshot := some (newPollingSnapshot coll batchSize position) }
        coll batchSize snapshotFlag position)
  | .ok cd =>
    .ok (combinedAddSnapshot { cdc := some cd } coll batchSize snapshotFlag position)

/-- Model of `Combined.HasNext`: delegate to the snapshot while it has
records; when it is exhausted, stop it, drop it and delegate to the
polling snapshot when present, else to the change stream; with no
sub-iterator at all this is `ErrNoIterator`. -/
def Combined.hasNext {V : Type} [LinearOrder V] (c : Combined V)
    (coll : List (MDoc V)) : Except String (Bool × Combined V) :=
  match c.snapshot with
  | some s =>
    match s.hasNext coll with
    | (true, s1) => .ok (true, { c with snapshot := some s1 })
    | (false, _) =>
      let c1 : Combined V := { c with snapshot := none }
      match c1.pollingSnapshot with
      | some p =>
        match p.hasNext coll with
        | (h, p1) => .ok (h, { c1 with pollingSnapshot := some p1 })
      | none =>
        match c1.cdc with
        | some cd =>
          match cd.hasNext with
          | (h, cd1) => .ok (h, { c1 with cdc := some cd1 })
        | none => .error "no iterator"
  | none =>
    match c.pollingSnapshot with
    | some p =>
      match p.hasNext coll with
      | (h, p1) => .ok (h, { c with pollingSnapshot := some p1 })
    | none =>
      match c.cdc with
      | some cd =>
        match cd.hasNext with
        | (h, cd1) => .ok (h, { c with cdc := some cd1 })
      | none => .error "no iterator"

/-- Model of `Combined.Next`: delegate to the active sub-iterator in the
order snapshot, polling snapshot, cdc. -/
def Combined.next {V : Type} [LinearOrder V] (c : Combined V) :
    Except String (Rec V × Combined V) :=
  match c.snapshot with
  | some s =>
    match s.next with
    | .error e => .error e
    | .ok (r, s1) => .ok (r, { c with snapshot := some s1 })
  | none =>
    match c.pollingSnapshot with
    | some p =>
      match p.next with
      | .error e => .error e
      | .ok (r, p1) => .ok (r, { c with pollingSnapshot := some p1 })
    | none =>
      match c.cdc with
      | some cd =>
        match @CDC.next V cd with
        | .error e => .error e
        | .ok r => .ok (r, c)
      | none => .error "no iterator"

/-! ### Verification artifacts for the snapshot invariant -/

/-- The documents a snapshot state may still deliver: the one `TryNext`
last advanced to plus the rest of the current cursor batch. -/
def pend {V : Type} (s : Snap V) : List (MDoc V) :=
  (match s.current with | some d => [d] | none => []) ++ (s.cursor.getD [])

/-- Invariant of the snapshot iterator relative to the frozen maximum
`m` and the position element `e0` it was (re)started from: the frozen
maximum never changes, the stored position element only grows from
`e0`, and every pending document respects the `(e0, m]` window, is not
below the stored position element, and the pending list is sorted. -/
structure SnapInv {V : Type} [LinearOrder V] (m : V) (e0 : Option V) (s : Snap V) : Prop where
  max_eq : s.maxValue = some m
  pos_lb : ∀ e, e0 = some e → ∃ p, s.posElement = some p ∧ e ≤ p
  pend_gt0 : ∀ d ∈ pend s, ∀ e, e0 = some e → e < d.ord
  pend_le : ∀ d ∈ pend s, d.ord ≤ m
  pend_ge_pos : ∀ d ∈ pend s, ∀ p, s.posElement = some p → p ≤ d.ord
  pend_sorted : List.Pairwise docLE (pend s)

/-! ## Helper lemmas -/

theorem combinedAddSnapshot_preserves {V : Type} [LinearOrder V] (c : Combined V)
    (coll : List (MDoc V)) (bs : Nat) (flag : Bool) (pos : Option (Pos V)) :
    (combinedAddSnapshot c coll bs flag pos).pollingSnapshot = c.pollingSnapshot ∧
    (combinedAddSnapshot c coll bs flag pos).cdc = c.cdc := by
  unfold combinedAddSnapshot
  split <;> simp

theorem newCDC_resumeAfter {V : Type} (watch : Watcher) (position : Option (Pos V))
    (cd : CDC) (h : newCDC watch position = .ok cd) :
    cd.changeStream.resumeAfter = position.bind (·.resumeToken) := by
  cases position with
  | none =>
    simp only [newCDC, createChangeStream] at h
    rcases hw : watch { fullDocument := "updateLookup", resumeAfter := none } with e | ⟨evs, tok⟩ <;>
      rw [hw] at h
    · exact Except.noConfusion h
    · cases h; rfl
  | some p =>
    simp only [newCDC, createChangeStream] at h
    rcases hw : watch { fullDocument := "updateLookup", resumeAfter := p.resumeToken } with e | ⟨evs, tok⟩ <;>
      rw [hw] at h
    · exact Except.noConfusion h
    · cases h; rfl

theorem bsonEncodeObj_eq_map (l : List (String × Json)) :
    bsonEncodeObj l = l.map (fun kv => (kv.1, bsonEncode kv.2)) := by
  induction l with
  | nil => rfl
  | cons kv rest ih => cases kv; simp [bsonEncodeObj, ih]

theorem mem_eraseKey {kvs : List (String × Json)} {k : String} {x : String × Json} :
    x ∈ eraseKey kvs k ↔ x ∈ kvs ∧ x.1 ≠ k := by
  simp [eraseKey, List.mem_filter]

theorem goToUpper_eq_empty_iff (s : String) : goToUpper s = "" ↔ s = "" := by
  cases s with
  | mk l =>
    constructor
    · intro h
      have hd : l.map Char.toUpper = [] := congrArg String.data h
      have hl : l = [] := List.map_eq_nil_iff.mp hd
      subst hl; rfl
    · intro h
      have hd : l = [] := congrArg String.data h
      subst hd; rfl

theorem authMechanismIsValid_iff (m : String) :
    authMechanismIsValid m = true ↔ m ∈ validAuthMechanisms := by
  simp [authMechanismIsValid, validAuthMechanisms, or_assoc]

theorem b64Index_b64Char : ∀ n, n < 64 → b64Index (b64Char n) = some n := by decide

theorem b64Char_ne_eq : ∀ n, n < 64 → b64Char n ≠ '=' := by decide

theorem b64_decode_encode :
    ∀ (l : List Nat), (∀ b ∈ l, b < 256) → b64Decode (b64Encode l) = some l
  | [], _ => rfl
  | [b1], h => by
    have hb1 : b1 < 256 := h b1 (by simp)
    have i1 : b64Index (b64Char (b1 / 4)) = some (b1 / 4) := b64Index_b64Char _ (by omega)
    have i2 : b64Index (b64Char (b1 % 4 * 16)) = some (b1 % 4 * 16) :=
      b64Index_b64Char _ (by omega)
    simp only [b64Encode, b64Decode, i1, i2, reduceIte, and_self, List.cons.injEq,
      Option.some.injEq, and_true]
    omega
  | [b1, b2], h => by
    have hb1 : b1 < 256 := h b1 (by simp)
    have hb2 : b2 < 256 := h b2 (by simp)
    have i1 : b64Index (b64Char (b1 / 4)) = some (b1 / 4) := b64Index_b64Char _ (by omega)
    have i2 : b64Index (b64Char (b1 % 4 * 16 + b2 / 16)) = some (b1 % 4 * 16 + b2 / 16) :=
      b64Index_b64Char _ (by omega)
    have i3 : b64Index (b64Char (b2 % 16 * 4)) = some (b2 % 16 * 4) :=
      b64Index_b64Char _ (by omega)
    have n3 : (b64Char (b2 % 16 * 4) = '=') = False := eq_false (b64Char_ne_eq _ (by omega))
    simp only [b64Encode, b64Decode, i1, i2, i3, n3, if_false, reduceIte, List.cons.injEq,
      Option.some.injEq, and_true]
    constructor <;> omega
  | b1 :: b2 :: b3 :: rest, h => by
    have hb1 : b1 < 256 := h b1 (by simp)
    have hb2 : b2 < 256 := h b2 (by simp)
    have hb3 : b3 < 256 := h b3 (by simp)
    have ih := b64_decode_encode rest (fun b hb => h b (by simp [hb]))
    have i1 : b64Index (b64Char (b1 / 4)) = some (b1 / 4) := b64Index_b64Char _ (by omega)
    have i2 : b64Index (b64Char (b1 % 4 * 16 + b2 / 16)) = some (b1 % 4 * 16 + b2 / 16) :=
      b64Index_b64Char _ (by omega)
    have i3 : b64Index (b64Char (b2 % 16 * 4 + b3 / 64)) = some (b2 % 16 * 4 + b3 / 64) :=
      b64Index_b64Char _ (by omega)
    have i4 : b64Index (b64Char (b3 % 64)) = some (b3 % 64) := b64Index_b64Char _ (by omega)
    have n3 : (b64Char (b2 % 16 * 4 + b3 / 64) = '=') = False :=
      eq_false (b64Char_ne_eq _ (by omega))
    have n4 : (b64Char (b3 % 64) = '=') = False := eq_false (b64Char_ne_eq _ (by omega))
    simp only [b64Encode, b64Decode, i1, i2, i3, i4, n3, n4, if_false, ih, Option.map_some',
      List.cons.injEq, Option.some.injEq, and_true]
    omega

theorem parseAnyField_some {e : Json} (he : e ≠ .null) : parseAnyField (some e) = some e := by
  cases e <;> first | rfl | exact absurd rfl he

theorem parseTokenField_round (t : List Nat) (hb : ∀ b ∈ t, b < 256) :
    parseTokenField (some (.str ⟨b64Encode t⟩)) = .ok (some t) := by
  simp [parseTokenField, b64_decode_encode t hb]

theorem lookupKey_cons_self (k : String) (v : Json) (rest : List (String × Json)) :
    lookupKey ((k, v) :: rest) k = some v := by
  simp [lookupKey, List.find?]

theorem lookupKey_cons_ne {k' k : String} (h : (k' == k) = false) (v : Json)
    (rest : List (String × Json)) :
    lookupKey ((k', v) :: rest) k = lookupKey rest k := by
  simp [lookupKey, List.find?, h]

theorem lookupKey_nil (k : String) : lookupKey [] k = none := rfl

theorem Snap.hasNext_fields {V : Type} [LinearOrder V] (s : Snap V) (coll : List (MDoc V)) :
    ((s.hasNext coll).2).polling = s.polling ∧
    ((s.hasNext coll).2).posElement = s.posElement ∧
    ((s.hasNext coll).2).maxValue = s.maxValue ∧
    ((s.hasNext coll).2).resumeToken = s.resumeToken := by
  unfold Snap.hasNext
  split <;> try split
  all_goals simp

theorem Snap.next_spec {V : Type} [LinearOrder V] (s : Snap V) (d : MDoc V)
    (h : s.current = some d) :
    s.next = .ok
      ({ op := if s.polling then Op.create else Op.snapshot
         pos := { mode := if s.polling then modeCDC else modeSnapshot
                  element := some d.ord
                  maxElement := s.maxValue
                  resumeToken := s.resumeToken }
         key := [("_id", d.id)]
         payloadAfter := some d.body },
        { s with posElement := some d.ord }) := by
  unfold Snap.next
  rw [h]

theorem snapRun_cons_false {V : Type} [LinearOrder V] {s s1 : Snap V}
    {coll : List (MDoc V)} {rest : List (List (MDoc V))}
    (h1 : s.hasNext coll = (false, s1)) : snapRun (coll :: rest) s = [] := by
  simp [snapRun, h1]

theorem snapRun_cons_err {V : Type} [LinearOrder V] {s s1 : Snap V}
    {coll : List (MDoc V)} {rest : List (List (MDoc V))} {e : String}
    (h1 : s.hasNext coll = (true, s1)) (h2 : s1.next = .error e) :
    snapRun (coll :: rest) s = [] := by
  simp [snapRun, h1, h2]

theorem snapRun_cons_ok {V : Type} [LinearOrder V] {s s1 s2 : Snap V} {r : Rec V}
    {coll : List (MDoc V)} {rest : List (List (MDoc V))}
    (h1 : s.hasNext coll = (true, s1)) (h2 : s1.next = .ok (r, s2)) :
    snapRun (coll :: rest) s = r :: snapRun rest s2 := by
  simp [snapRun, h1, h2]

theorem snapRun_ops {V : Type} [LinearOrder V] (colls : List (List (MDoc V))) :
    ∀ (s : Snap V), ∀ r ∈ snapRun colls s,
      r.op = (if s.polling then Op.create else Op.snapshot) ∧
      r.pos.mode = (if s.polling then modeCDC else modeSnapshot) := by
  induction colls with
  | nil => intro s r hr; simp [snapRun] at hr
  | cons coll rest ih =>
    intro s r hr
    rcases h1 : s.hasNext coll with ⟨b, s1⟩
    cases b with
    | false => rw [snapRun_cons_false h1] at hr; simp at hr
    | true =>
      have hs1 : (s.hasNext coll).2 = s1 := by rw [h1]
      have hpoll : s1.polling = s.polling := by
        rw [← hs1]; exact (Snap.hasNext_fields s coll).1
      rcases h2c : s1.current with _ | d
      · have h2 : s1.next = .error "decode element" := by
          unfold Snap.next; rw [h2c]
        rw [snapRun_cons_err h1 h2] at hr
        simp at hr
      · rw [snapRun_cons_ok h1 (Snap.next_spec s1 d h2c)] at hr
        simp only [List.mem_cons] at hr
        rcases hr with hr | hr
        · subst hr
          simp [hpoll]
        · have hrec := ih _ r hr
          simpa [hpoll] using hrec

theorem batchFilter_true_iff {V : Type} [LinearOrder V] {gt lte : Option V} {d : MDoc V} :
    batchFilter gt lte d = true ↔
      ((∀ m, lte = some m → d.ord ≤ m) ∧ (∀ e, gt = some e → e < d.ord)) := by
  unfold batchFilter
  rcases lte with _ | m <;> rcases gt with _ | e <;> simp

theorem mem_findBatch {V : Type} [LinearOrder V] {coll : List (MDoc V)}
    {gt lte : Option V} {lim : Nat} {d : MDoc V} (h : d ∈ findBatch coll gt lte lim) :
    batchFilter gt lte d = true := by
  unfold findBatch at h
  have h2 := List.take_subset _ _ h
  rw [List.mem_insertionSort] at h2
  exact (List.mem_filter.mp h2).2

theorem sorted_findBatch {V : Type} [LinearOrder V] (coll : List (MDoc V))
    (gt lte : Option V) (lim : Nat) :
    List.Pairwise docLE (findBatch coll gt lte lim) := by
  unfold findBatch
  exact List.Pairwise.sublist (List.take_sublist _ _)
    (List.sorted_insertionSort docLE _)

theorem pend_update_cursor {V : Type} [LinearOrder V] (s : Snap V) (d : MDoc V)
    (rest : List (MDoc V)) :
    pend { s with cursor := some rest, current := some d } = d :: rest := by
  simp [pend]

theorem Snap.hasNext_inv {V : Type} [LinearOrder V] {m : V} {e0 : Option V} {s : Snap V}
    (inv : SnapInv m e0 s) (coll : List (MDoc V)) :
    SnapInv m e0 ((s.hasNext coll).2) ∧
    ((s.hasNext coll).1 = true → ∃ d, ((s.hasNext coll).2).current = some d) := by
  have hload : ∀ (d : MDoc V) (rest : List (MDoc V)),
      findBatch coll s.posElement s.maxValue s.batchSize = d :: rest →
      SnapInv m e0 { s with cursor := some rest, current := some d } := by
    intro d rest hb
    have hmem : ∀ d' ∈ pend { s with cursor := some rest, current := some d },
        batchFilter s.posElement s.maxValue d' = true := by
      intro d' hd'
      rw [pend_update_cursor] at hd'
      exact @mem_findBatch V _ coll s.posElement s.maxValue s.batchSize d' (hb ▸ hd')
    refine ⟨inv.max_eq, inv.pos_lb, ?_, ?_, ?_, ?_⟩
    · intro d' hd' e he
      obtain ⟨p, hp, hep⟩ := inv.pos_lb e he
      have := (batchFilter_true_iff.mp (hmem d' hd')).2 p hp
      exact lt_of_le_of_lt hep this
    · intro d' hd'
      exact (batchFilter_true_iff.mp (hmem d' hd')).1 m inv.max_eq
    · intro d' hd' p hp
      exact le_of_lt ((batchFilter_true_iff.mp (hmem d' hd')).2 p hp)
    · rw [pend_update_cursor, ← hb]
      exact sorted_findBatch coll _ _ _
  unfold Snap.hasNext
  rcases hc : s.cursor with _ | (_ | ⟨d, rest⟩)
  · rcases hb : findBatch coll s.posElement s.maxValue s.batchSize with _ | ⟨d, rest⟩
    · refine ⟨⟨inv.max_eq, inv.pos_lb, ?_, ?_, ?_, ?_⟩, ?_⟩ <;> simp [pend]
    · exact ⟨hload d rest hb, fun _ => ⟨d, rfl⟩⟩
  · rcases hb : findBatch coll s.posElement s.maxValue s.batchSize with _ | ⟨d, rest⟩
    · refine ⟨⟨inv.max_eq, inv.pos_lb, ?_, ?_, ?_, ?_⟩, ?_⟩ <;> simp [pend]
    · exact ⟨hload d rest hb, fun _ => ⟨d, rfl⟩⟩
  · have hsub : List.Sublist (d :: rest) (pend s) := by
      have : pend s = (match s.current with | some c => [c] | none => []) ++ (d :: rest) := by
        simp [pend, hc]
      rw [this]
      exact (List.suffix_append _ _).sublist
    refine ⟨⟨inv.max_eq, inv.pos_lb, ?_, ?_, ?_, ?_⟩, fun _ => ⟨d, rfl⟩⟩
    · intro d' hd'
      rw [pend_update_cursor] at hd'
      exact inv.pend_gt0 d' (hsub.subset hd')
    · intro d' hd'
      rw [pend_update_cursor] at hd'
      exact inv.pend_le d' (hsub.subset hd')
    · intro d' hd'
      rw [pend_update_cursor] at hd'
      exact inv.pend_ge_pos d' (hsub.subset hd')
    · rw [pend_update_cursor]
      exact List.Pairwise.sublist hsub inv.pend_sorted

theorem Snap.next_inv {V : Type} [LinearOrder V] {m : V} {e0 : Option V} {s : Snap V}
    {d : MDoc V} (inv : SnapInv m e0 s) (h : s.current = some d) :
    SnapInv m e0 { s with posElement := some d.ord } ∧
    (∀ e, e0 = some e → e < d.ord) ∧ d.ord ≤ m ∧
    (∀ p, s.posElement = some p → p ≤ d.ord) := by
  have hd : d ∈ pend s := by simp [pend, h]
  have hpend : pend { s with posElement := some d.ord } = pend s := by simp [pend]
  have hcons : pend s = d :: s.cursor.getD [] := by simp [pend, h]
  refine ⟨⟨inv.max_eq, ?_, ?_, ?_, ?_, ?_⟩, inv.pend_gt0 d hd, inv.pend_le d hd,
    inv.pend_ge_pos d hd⟩
  · intro e he
    exact ⟨d.ord, rfl, le_of_lt (inv.pend_gt0 d hd e he)⟩
  · intro d' hd'
    rw [hpend] at hd'
    exact inv.pend_gt0 d' hd'
  · intro d' hd'
    rw [hpend] at hd'
    exact inv.pend_le d' hd'
  · intro d' hd' p hp
    rw [hpend] at hd'
    cases hp
    rw [hcons] at hd'
    rcases List.mem_cons.mp hd' with hd' | hd'
    · rw [hd']
    · have hsort := inv.pend_sorted
      rw [hcons] at hsort
      exact (List.pairwise_cons.mp hsort).1 d' hd'
  · rw [hpend]
    exact inv.pend_sorted

theorem snapRun_inv {V : Type} [LinearOrder V] (m : V) (e0 : Option V)
    (colls : List (List (MDoc V))) :
    ∀ (s : Snap V), SnapInv m e0 s →
    (∀ r ∈ snapRun colls s, ∃ v, r.pos.element = some v ∧
      (∀ e, e0 = some e → e < v) ∧ v ≤ m ∧
      (∀ p, s.posElement = some p → p ≤ v)) ∧
    List.Pairwise (· ≤ ·) ((snapRun colls s).filterMap (fun r => r.pos.element)) := by
  induction colls with
  | nil => intro s _; simp [snapRun]
  | cons coll rest ih =>
    intro s inv
    rcases h1 : s.hasNext coll with ⟨b, s1⟩
    cases b with
    | false => rw [snapRun_cons_false h1]; simp
    | true =>
      have hinv1 : SnapInv m e0 s1 ∧ (∃ d, s1.current = some d) := by
        have h := Snap.hasNext_inv inv coll
        rw [h1] at h
        exact ⟨h.1, h.2 rfl⟩
      have inv1 := hinv1.1
      obtain ⟨d, hd⟩ := hinv1.2
      have hposeq : s1.posElement = s.posElement := by
        have h := (Snap.hasNext_fields s coll).2.1
        rw [h1] at h
        exact h
      have hnext := Snap.next_spec s1 d hd
      obtain ⟨inv2, hgt0, hle, hgep⟩ := Snap.next_inv inv1 hd
      have hih := ih { s1 with posElement := some d.ord } inv2
      rw [snapRun_cons_ok h1 hnext]
      constructor
      · intro r hr
        rcases List.mem_cons.mp hr with hr | hr
        · subst hr
          exact ⟨d.ord, rfl, hgt0, hle, fun p hp => hgep p (hposeq ▸ hp)⟩
        · obtain ⟨v, hv, hv1, hv2, hv3⟩ := hih.1 r hr
          refine ⟨v, hv, hv1, hv2, fun p hp => ?_⟩
          exact le_trans (hgep p (hposeq ▸ hp)) (hv3 d.ord rfl)
      · rw [List.filterMap_cons]
        simp only
        rw [List.pairwise_cons]
        refine ⟨?_, hih.2⟩
        intro v hv
        obtain ⟨r, hr, hre⟩ := List.mem_filterMap.mp hv
        obtain ⟨v', hv', _, _, hv3⟩ := hih.1 r hr
        rw [hv'] at hre
        cases hre
        exact hv3 d.ord rfl

/-- Model sanity check: a polling snapshot over an initially empty
collection that then receives one document emits that document as a
`create` record with a cdc-mode position. -/
theorem snapRun_polling_example :
    snapRun [[⟨1, .str "a", .obj []⟩]] (newPollingSnapshot ([] : List (MDoc Int)) 5 none) =
      [{ op := Op.create
         pos := { mode := modeCDC, resumeToken := none, element := some 1, maxElement := none }
         key := [("_id", .str "a")]
         payloadAfter := some (.obj []) }] := rfl

/-- Model sanity check: a fresh snapshot over a two-document collection
emits both documents, in ascending ordering-field order, as `snapshot`
records carrying the frozen maximum, then stops. -/
theorem snapRun_snapshot_example :
    snapRun [[⟨1, .str "a", .null⟩, ⟨2, .str "b", .null⟩],
             [⟨1, .str "a", .null⟩, ⟨2, .str "b", .null⟩],
             [⟨1, .str "a", .null⟩, ⟨2, .str "b", .null⟩]]
      (newSnapshot [⟨1, .str "a", .null⟩, ⟨2, .str "b", .null⟩] 10 none (some [9])) =
      [{ op := Op.snapshot
         pos := { mode := modeSnapshot, resumeToken := some [9], element := some 1,
                  maxElement := some 2 }
         key := [("_id", .str "a")]
         payloadAfter := some .null },
       { op := Op.snapshot
         pos := { mode := modeSnapshot, resumeToken := some [9], element := some 2,
                  maxElement := some 2 }
         key := [("_id", .str "b")]
         payloadAfter := some .null }] := rfl

/-! ## Claims -/

/-- **C5.** Position round trip at the JSON-document granularity: for
every emittable position, unmarshalling the marshalled document yields
the position back with every field (mode, resumeToken, element,
maxElement) intact, and consequently re-marshalling what was
unmarshalled reproduces the marshalled document — encoding is a left
inverse of decoding on emitted positions. -/
theorem C5_position_roundtrip (p : Pos Json) (hp : EmittablePos p) :
    unmarshalPosition (marshalPosition p) = .ok p ∧
    (∀ q, unmarshalPosition (marshalPosition p) = .ok q →
      marshalPosition q = marshalPosition p) := by
  obtain ⟨mode, tok, elem, maxE⟩ := p
  obtain ⟨he, hm, ht⟩ := hp
  have main : unmarshalPosition (marshalPosition ⟨mode, tok, elem, maxE⟩) =
      .ok ⟨mode, tok, elem, maxE⟩ := by
    rcases tok with _ | t
    · rcases elem with _ | e
      · rcases maxE with _ | m
        · rfl
        · have hm' : m ≠ Json.null := fun h => hm (by rw [h])
          simp +decide [marshalPosition, unmarshalPosition, bind, Except.bind, lookupKey_cons_self,
            lookupKey_cons_ne, lookupKey_nil, parseModeField, parseTokenField,
            parseAnyField, parseAnyField_some hm']
      · have he' : e ≠ Json.null := fun h => he (by rw [h])
        rcases maxE with _ | m
        · simp +decide [marshalPosition, unmarshalPosition, bind, Except.bind, lookupKey_cons_self,
            lookupKey_cons_ne, lookupKey_nil, parseModeField, parseTokenField,
            parseAnyField, parseAnyField_some he']
        · have hm' : m ≠ Json.null := fun h => hm (by rw [h])
          simp +decide [marshalPosition, unmarshalPosition, bind, Except.bind, lookupKey_cons_self,
            lookupKey_cons_ne, lookupKey_nil, parseModeField, parseTokenField,
            parseAnyField_some he', parseAnyField_some hm']
    · have htne : ¬(t = []) := (ht t rfl).1
      have hbytes : ∀ b ∈ t, b < 256 := (ht t rfl).2
      rcases elem with _ | e
      · rcases maxE with _ | m
        · simp +decide [marshalPosition, unmarshalPosition, bind, Except.bind, lookupKey_cons_self,
            lookupKey_cons_ne, lookupKey_nil, parseModeField, parseAnyField,
            parseTokenField_round t hbytes, htne]
        · have hm' : m ≠ Json.null := fun h => hm (by rw [h])
          simp +decide [marshalPosition, unmarshalPosition, bind, Except.bind, lookupKey_cons_self,
            lookupKey_cons_ne, lookupKey_nil, parseModeField, parseAnyField,
            parseTokenField_round t hbytes, htne, parseAnyField_some hm']
      · have he' : e ≠ Json.null := fun h => he (by rw [h])
        rcases maxE with _ | m
        · simp +decide [marshalPosition, unmarshalPosition, bind, Except.bind, lookupKey_cons_self,
            lookupKey_cons_ne, lookupKey_nil, parseModeField, parseAnyField,
            parseTokenField_round t hbytes, htne, parseAnyField_some he']
        · have hm' : m ≠ Json.null := fun h => hm (by rw [h])
          simp +decide [marshalPosition, unmarshalPosition, bind, Except.bind, lookupKey_cons_self,
            lookupKey_cons_ne, lookupKey_nil, parseModeField,
            parseTokenField_round t hbytes, htne, parseAnyField_some he',
            parseAnyField_some hm']
  exact ⟨main, fun q hq => by rw [main] at hq; cases hq; rfl⟩

/-- **C5 witness.** The round trip applied to a concrete snapshot-mode
position with a resume token, an element and a max element. -/
theorem C5_position_roundtrip_witness :
    unmarshalPosition (marshalPosition
      ⟨"snapshot", some [1, 2, 255], some (.num 5), some (.num 9)⟩) =
      .ok ⟨"snapshot", some [1, 2, 255], some (.num 5), some (.num 9)⟩ :=
  (C5_position_roundtrip ⟨"snapshot", some [1, 2, 255], some (.num 5), some (.num 9)⟩
    ⟨by simp, by simp, by intro t h; cases h; exact ⟨by simp, by decide⟩⟩).1

/-- **C6.** Every record emitted by the polling snapshot iterator (the
change-stream fallback) carries operation `create` and a cdc-mode
position, while every record emitted by the non-polling snapshot
iterator carries operation `snapshot` and a snapshot-mode position. -/
theorem C6_polling_record_shape {V : Type} [LinearOrder V]
    (colls : List (List (MDoc V))) (coll : List (MDoc V)) (batchSize : Nat)
    (position : Option (Pos V)) (resumeToken : Option (List Nat)) :
    ((newPollingSnapshot coll batchSize position).polling = true ∧
      ∀ r ∈ snapRun colls (newPollingSnapshot coll batchSize position),
        r.op = Op.create ∧ r.pos.mode = modeCDC) ∧
    ((newSnapshot coll batchSize position resumeToken).polling = false ∧
      ∀ r ∈ snapRun colls (newSnapshot coll batchSize position resumeToken),
        r.op = Op.snapshot ∧ r.pos.mode = modeSnapshot) := by
  refine ⟨⟨rfl, fun r hr => ?_⟩, ⟨rfl, fun r hr => ?_⟩⟩
  · have h := snapRun_ops colls _ r hr
    rwa [show (newPollingSnapshot coll batchSize position).polling = true from rfl,
      if_pos rfl] at h
  · have h := snapRun_ops colls _ r hr
    rwa [show (newSnapshot coll batchSize position resumeToken).polling = false from rfl,
      if_neg (by simp)] at h

/-- **C8 counterexample.** The claim says any non-empty `auth.mechanism`
value other than the five exact mechanism names is rejected; but the
lower-case spelling `"scram-sha-256"` is non-empty, is not one of the
five names, and is accepted (the code upper-cases the raw value before
validating it). -/
theorem C8_counterexample :
    parseAuthMechanism "scram-sha-256" = .ok "SCRAM-SHA-256" ∧
    "scram-sha-256" ∉ validAuthMechanisms ∧ "scram-sha-256" ≠ "" := by
  constructor
  · rfl
  · constructor <;> decide

/-- **C8 (amended).** Parsing succeeds with respect to the
authentication mechanism iff `auth.mechanism` is empty or names one of
the five mechanisms case-insensitively (the raw value is upper-cased
before validation, and the upper-cased value must be empty or one of
SCRAM-SHA-256, SCRAM-SHA-1, MONGODB-CR, MONGODB-AWS, MONGODB-X509);
any other value is rejected as `InvalidAuthMechanismError`. -/
theorem C8_auth_mechanism (raw : String) :
    (parseAuthMechanism raw = .ok (goToUpper raw) ↔
      (raw = "" ∨ goToUpper raw ∈ validAuthMechanisms)) ∧
    ((∃ e, parseAuthMechanism raw = .error e) ↔
      ¬(raw = "" ∨ goToUpper raw ∈ validAuthMechanisms)) := by
  unfold parseAuthMechanism
  by_cases h : goToUpper raw ≠ "" ∧ authMechanismIsValid (goToUpper raw) = false
  · rw [if_pos h]
    obtain ⟨hne, hinv⟩ := h
    have hmem : goToUpper raw ∉ validAuthMechanisms := by
      rw [← authMechanismIsValid_iff]; simp [hinv]
    have hraw : raw ≠ "" := fun hr => hne (by simp [hr, goToUpper_eq_empty_iff])
    constructor
    · constructor
      · intro hc; cases hc
      · intro hc; rcases hc with hc | hc
        · exact absurd hc hraw
        · exact absurd hc hmem
    · constructor
      · intro _ hc
        rcases hc with hc | hc
        · exact hraw hc
        · exact hmem hc
      · intro _; exact ⟨"invalid auth mechanism", rfl⟩
  · rw [if_neg h]
    rw [not_and_or] at h
    constructor
    · constructor
      · intro _
        rcases h with h | h
        · left; rw [← goToUpper_eq_empty_iff]; simpa using h
        · right; rw [← authMechanismIsValid_iff]; simpa using h
      · intro _; rfl
    · constructor
      · intro ⟨e, he⟩; cases he
      · intro hc
        exfalso; apply hc
        rcases h with h | h
        · left; rw [← goToUpper_eq_empty_iff]; simpa using h
        · right; rw [← authMechanismIsValid_iff]; simpa using h

/-- **C8 witness.** The amended theorem applied at the concrete input
`"scram-sha-1"`. -/
theorem C8_auth_mechanism_witness :
    parseAuthMechanism "scram-sha-1" = .ok (goToUpper "scram-sha-1") :=
  (C8_auth_mechanism "scram-sha-1").1.mpr (by right; decide)

/-- **C9.** `Source.Read` returns the `BackoffRetry` sentinel exactly
when `HasNext` reports no record and no error; a record exactly when
`HasNext` is true and `Next` succeeds with it; and any error of
`HasNext` or `Next` is surfaced as a wrapped error, never as the
sentinel. -/
theorem C9_source_read {α : Type} (hn : Except String Bool) (nx : Except String α) :
    (sourceRead hn nx = .backoffRetry ↔ hn = .ok false) ∧
    (∀ r : α, sourceRead hn nx = .record r ↔ (hn = .ok true ∧ nx = .ok r)) ∧
    (∀ e, hn = .error e → sourceRead hn nx = .fail ("has next: " ++ e)) ∧
    (∀ e, hn = .ok true → nx = .error e →
      sourceRead hn nx = .fail ("get next record: " ++ e)) := by
  refine ⟨?_, ?_, ?_, ?_⟩
  · cases hn with
    | error e => simp [sourceRead]
    | ok b =>
      cases b with
      | false => simp [sourceRead]
      | true =>
        cases nx with
        | error e => simp [sourceRead]
        | ok r => simp [sourceRead]
  · intro r
    cases hn with
    | error e => simp [sourceRead]
    | ok b =>
      cases b with
      | false => simp [sourceRead]
      | true =>
        cases nx with
        | error e => simp [sourceRead]
        | ok r2 => simp [sourceRead]
  · intro e he; subst he; rfl
  · intro e hh hn2; subst hh; subst hn2; rfl

/-- **C9 witness.** The theorem applied with a `HasNext` that reports no
record: `Read` yields the sentinel. -/
theorem C9_source_read_witness :
    @sourceRead Nat (.ok false) (.ok 0) = .backoffRetry :=
  (C9_source_read (.ok false) (.ok 0)).1.mpr rfl

/-- **C4.** Before the `$gt` filter reaches the engine, a stored
position element that is a valid 24-character hex representation of an
object-id is converted to the typed object-id, and any other element
value is used unchanged — both by `processPositionElement` on the
element itself and by the registered `StringObjectIDCodec` when the
driver marshals the filter value. -/
theorem C4_gt_filter_objectid (v : Json) :
    (∀ s oid, v = .str s → objectIDFromHex s = some oid →
      processPositionElement v = .objectId oid ∧ stringObjectIDEncode s = .objectId oid) ∧
    (∀ s, v = .str s → objectIDFromHex s = none →
      processPositionElement v = .str s ∧ stringObjectIDEncode s = .str s) ∧
    ((∀ s, v ≠ .str s) → processPositionElement v = v.toBVal) ∧
    (∀ s oid, objectIDFromHex s = some oid → s.length = 24) := by
  refine ⟨?_, ?_, ?_, ?_⟩
  · intro s oid hv hoid; subst hv
    simp [processPositionElement, stringObjectIDEncode, hoid]
  · intro s hv hoid; subst hv
    simp [processPositionElement, stringObjectIDEncode, hoid]
  · intro hns
    cases v with
    | null => rfl
    | bool b => rfl
    | num q => rfl
    | str s => exact absurd rfl (hns s)
    | arr a => rfl
    | obj o => rfl
  · intro s oid hoid
    unfold objectIDFromHex at hoid
    by_cases h : s.length = 24
    · exact h
    · rw [if_neg h] at hoid; cases hoid

/-- **C4 witness.** The theorem applied to the element
`"507f1f77bcf86cd799439011"`, a valid object-id hex string: the `$gt`
value becomes the typed object-id with those bytes. -/
theorem C4_gt_filter_objectid_witness :
    processPositionElement (.str "507f1f77bcf86cd799439011") =
      .objectId [80, 127, 31, 119, 188, 248, 108, 215, 153, 67, 144, 17] ∧
    stringObjectIDEncode "507f1f77bcf86cd799439011" =
      .objectId [80, 127, 31, 119, 188, 248, 108, 215, 153, 67, 144, 17] :=
  (C4_gt_filter_objectid (.str "507f1f77bcf86cd799439011")).1
    "507f1f77bcf86cd799439011" _ rfl (by rfl)

/-- **C7.** For an update record whose after-payload and key parse as
maps, the writer issues exactly one
`updateOne(filter, {$set: payload})` where the filter is the marshalled
key map and the `$set` body is the marshalled payload with its `_id`
field removed; in particular `_id` never occurs in the `$set` body. -/
theorem C7_writer_update (ko po : List (String × Json)) :
    writerUpdate (.obj ko) (.obj po) =
      .ok (.updateOne (bsonEncodeDoc ko)
        [("$set", .obj (bsonEncodeDoc (eraseKey po "_id")))]) ∧
    (∀ kv ∈ bsonEncodeDoc (eraseKey po "_id"), kv.1 ≠ "_id") := by
  constructor
  · rfl
  · intro kv hkv
    rw [bsonEncodeDoc, bsonEncodeObj_eq_map] at hkv
    obtain ⟨kv0, hkv0, hmap⟩ := List.mem_map.mp hkv
    have h1 := (mem_eraseKey.mp hkv0).2
    rw [← hmap]
    exact h1

/-- **C7 witness.** The theorem applied to a concrete update record:
payload `{_id: "a", n: 1}`, key `{_id: "a"}`. -/
theorem C7_writer_update_witness :
    writerUpdate (.obj [("_id", .str "a")]) (.obj [("_id", .str "a"), ("n", .num 1)]) =
      .ok (.updateOne [("_id", .str "a")] [("$set", .obj [("n", .num 1)])]) :=
  (C7_writer_update [("_id", .str "a")] [("_id", .str "a"), ("n", .num 1)]).1

/-- **C10.** For update and delete records the filter sent to the engine
is the key map marshalled through the registered string→object-id
codec, so every string value in the key that is a valid 24-character hex
object-id representation — `_id` included — reaches the engine as the
typed object-id. -/
theorem C10_filter_objectid (ko : List (String × Json)) :
    (∀ po, writerUpdate (.obj ko) (.obj po) =
      .ok (.updateOne (bsonEncodeDoc ko)
        [("$set", .obj (bsonEncodeDoc (eraseKey po "_id")))])) ∧
    writerDelete (.obj ko) = .ok (.deleteOne (bsonEncodeDoc ko)) ∧
    (∀ k s oid, (k, Json.str s) ∈ ko → objectIDFromHex s = some oid →
      (k, BVal.objectId oid) ∈ bsonEncodeDoc ko) := by
  refine ⟨fun po => rfl, rfl, ?_⟩
  intro k s oid hmem hoid
  rw [bsonEncodeDoc, bsonEncodeObj_eq_map]
  refine List.mem_map.mpr ⟨(k, Json.str s), hmem, ?_⟩
  simp [bsonEncode, stringObjectIDEncode, hoid]

/-- **C1.** When change-stream creation succeeds and a snapshot is taken
(snapshot flag true and position absent or snapshot-mode), the combined
iterator is constructed with both the snapshot sub-iterator and the
change stream that was opened at construction time — resumed from
`position.resumeToken` when present, otherwise from the current server
time (no `resumeAfter`).  When the snapshot sub-iterator's `hasNext`
returns false, `HasNext` stops and drops the snapshot and answers from
that same change stream, and with the snapshot gone `HasNext`/`Next`
keep delegating to it, so the events accumulated since construction are
not lost. -/
theorem C1_snapshot_to_cdc_handoff {V : Type} [LinearOrder V] (watch : Watcher)
    (coll : List (MDoc V)) (batchSize : Nat) (position : Option (Pos V)) (cd : CDC)
    (hcdc : newCDC watch position = .ok cd)
    (hmode : position = none ∨ ∃ p, position = some p ∧ p.mode = modeSnapshot) :
    NewCombined watch coll batchSize true position = .ok
      { snapshot := some (newSnapshot coll batchSize position cd.changeStream.token),
        pollingSnapshot := none, cdc := some cd } ∧
    cd.changeStream.resumeAfter = position.bind (·.resumeToken) ∧
    (∀ (c : Combined V) (s : Snap V) (coll' : List (MDoc V)),
      c.snapshot = some s → c.pollingSnapshot = none → c.cdc = some cd →
      (s.hasNext coll').1 = false →
      c.hasNext coll' = .ok ((cd.hasNext).1,
        { snapshot := none, pollingSnapshot := none, cdc := some (cd.hasNext).2 })) ∧
    (∀ (c : Combined V) (coll' : List (MDoc V)),
      c.snapshot = none → c.pollingSnapshot = none → c.cdc = some cd →
      c.hasNext coll' = .ok ((cd.hasNext).1, { c with cdc := some (cd.hasNext).2 }) ∧
      (∀ e, @CDC.next V cd = .error e → c.next = .error e) ∧
      (∀ r, @CDC.next V cd = .ok r → c.next = .ok (r, c))) := by
  refine ⟨?_, newCDC_resumeAfter watch position cd hcdc, ?_, ?_⟩
  · unfold NewCombined
    rw [hcdc]
    unfold combinedAddSnapshot
    rcases hmode with hp | ⟨p, hp, hpm⟩
    · subst hp; simp
    · subst hp; simp [hpm]
  · intro c s coll' hs hp hc hfalse
    obtain ⟨cs, cp, cc⟩ := c
    simp only at hs hp hc
    subst hs; subst hp; subst hc
    rcases hh : s.hasNext coll' with ⟨b, s1⟩
    have hb : b = false := by rw [hh] at hfalse; exact hfalse
    subst hb
    rcases hcd : cd.hasNext with ⟨h, cd1⟩
    have h1 : (cd.hasNext).1 = h := by rw [hcd]
    have h2 : (cd.hasNext).2 = cd1 := by rw [hcd]
    simp [Combined.hasNext, hh, hcd, h1, h2]
  · intro c coll' hs hp hc
    obtain ⟨cs, cp, cc⟩ := c
    simp only at hs hp hc
    subst hs; subst hp; subst hc
    rcases hcd : cd.hasNext with ⟨h, cd1⟩
    have h1 : (cd.hasNext).1 = h := by rw [hcd]
    have h2 : (cd.hasNext).2 = cd1 := by rw [hcd]
    refine ⟨by simp [Combined.hasNext, hcd, h1, h2], ?_, ?_⟩
    · intro e he; simp [Combined.next, he]
    · intro r hr; simp [Combined.next, hr]

/-- **C1 witness.** The theorem applied to a concrete watcher that
succeeds with resume token `[7]`, no initial position, snapshot flag
set: construction yields the snapshot sub-iterator plus the change
stream opened at construction, which is not resuming (current server
time). -/
theorem C1_snapshot_to_cdc_handoff_witness :
    @NewCombined Int _ (fun _ => .ok ([], some [7])) [] 10 true none = .ok
      { snapshot := some (newSnapshot [] 10 none (some [7])),
        pollingSnapshot := none,
        cdc := some { changeStream :=
          { resumeAfter := none, token := some [7], pending := [], current := none } } } :=
  (@C1_snapshot_to_cdc_handoff Int _ (fun _ => .ok ([], some [7])) [] 10 none
    { changeStream :=
      { resumeAfter := none, token := some [7], pending := [], current := none } }
    rfl (Or.inl rfl)).1

/-- **C2.** In a snapshot run whose state carries a frozen maximum `m`
(fresh cursor, position element `e0`): every batch is loaded with the
filter `(lastElement, m]`, so each of its documents is strictly above
the element the batch was loaded from and at most `m`; every emitted
record's ordering value is strictly above `e0` (when present) and at
most `m`; and the emitted ordering values are ascending. -/
theorem C2_snapshot_interval {V : Type} [LinearOrder V]
    (colls : List (List (MDoc V))) (s0 : Snap V) (m : V) (e0 : Option V)
    (hcur : s0.cursor = none) (hcurr : s0.current = none)
    (hmax : s0.maxValue = some m) (hpos : s0.posElement = e0) :
    (∀ (coll : List (MDoc V)) (e : V) (lim : Nat),
      ∀ d ∈ findBatch coll (some e) (some m) lim, e < d.ord ∧ d.ord ≤ m) ∧
    (∀ r ∈ snapRun colls s0, ∃ v, r.pos.element = some v ∧
      (∀ e, e0 = some e → e < v) ∧ v ≤ m) ∧
    List.Pairwise (· ≤ ·) ((snapRun colls s0).filterMap (fun r => r.pos.element)) := by
  have inv0 : SnapInv m e0 s0 := by
    refine ⟨hmax, fun e he => ⟨e, by rw [hpos, he], le_refl e⟩, ?_, ?_, ?_, ?_⟩ <;>
      simp [pend, hcur, hcurr]
  have hrun := snapRun_inv m e0 colls s0 inv0
  refine ⟨?_, ?_, hrun.2⟩
  · intro coll e lim d hd
    have hf := batchFilter_true_iff.mp (mem_findBatch hd)
    exact ⟨hf.2 e rfl, hf.1 m rfl⟩
  · intro r hr
    obtain ⟨v, hv, hv1, hv2, _⟩ := hrun.1 r hr
    exact ⟨v, hv, hv1, hv2⟩

/-- **C2 witness.** The theorem applied to a fresh snapshot of a
two-document collection (ordering values 1 and 2, frozen maximum 2):
the emitted ordering values are ascending. -/
theorem C2_snapshot_interval_witness :
    List.Pairwise (· ≤ ·)
      (List.filterMap (fun r => r.pos.element)
        (snapRun [[⟨1, .str "a", .null⟩, ⟨2, .str "b", .null⟩],
                  [⟨1, .str "a", .null⟩, ⟨2, .str "b", .null⟩],
                  [⟨1, .str "a", .null⟩, ⟨2, .str "b", .null⟩]]
          (newSnapshot [⟨(1 : Int), .str "a", .null⟩, ⟨2, .str "b", .null⟩] 10 none none))) :=
  (C2_snapshot_interval
    [[⟨1, .str "a", .null⟩, ⟨2, .str "b", .null⟩],
     [⟨1, .str "a", .null⟩, ⟨2, .str "b", .null⟩],
     [⟨1, .str "a", .null⟩, ⟨2, .str "b", .null⟩]]
    (newSnapshot [⟨(1 : Int), .str "a", .null⟩, ⟨2, .str "b", .null⟩] 10 none none)
    2 none rfl rfl rfl rfl).2.2

/-- **C3.** If change-stream creation during combined-iterator
construction fails with an error containing the engine-limitation
marker, construction does not fail: a polling snapshot iterator is
constructed instead (and no cdc iterator exists); if the error does not
contain the marker, construction returns an error. -/
theorem C3_cosmos_fallback {V : Type} [LinearOrder V] (watch : Watcher)
    (coll : List (MDoc V)) (batchSize : Nat) (snapshotFlag : Bool)
    (position : Option (Pos V)) (e : String)
    (herr : newCDC watch position = .error e) :
    (strContains e matchProjectStageErrMessage = true →
      ∃ c, NewCombined watch coll batchSize snapshotFlag position = .ok c ∧
        c.pollingSnapshot = some (newPollingSnapshot coll batchSize position) ∧
        c.cdc = none) ∧
    (strContains e matchProjectStageErrMessage = false →
      NewCombined watch coll batchSize snapshotFlag position =
        .error ("init cdc iterator: " ++ e)) := by
  constructor
  · intro hc
    refine ⟨combinedAddSnapshot
      { pollingSnapshot := some (newPollingSnapshot coll batchSize position) }
      coll batchSize snapshotFlag position, ?_, ?_, ?_⟩
    · unfold NewCombined
      rw [herr]
      simp [hc]
    · exact (combinedAddSnapshot_preserves _ coll batchSize snapshotFlag position).1
    · exact (combinedAddSnapshot_preserves _ coll batchSize snapshotFlag position).2
  · intro hc
    unfold NewCombined
    rw [herr]
    simp [hc]

set_option maxRecDepth 40000 in
/-- **C3 witness.** The theorem applied to a watcher that fails with the
exact Cosmos marker text: construction succeeds with the polling
fallback. -/
theorem C3_cosmos_fallback_witness :
    ∃ c, @NewCombined Int _
        (fun _ => .error matchProjectStageErrMessage) [] 10 true none = .ok c ∧
      c.pollingSnapshot = some (newPollingSnapshot [] 10 none) ∧
      c.cdc = none :=
  (@C3_cosmos_fallback Int _ (fun _ => .error matchProjectStageErrMessage)
    [] 10 true none
    ("create change stream: create change stream on the collection: " ++
      matchProjectStageErrMessage)
    rfl).1 (by decide)

/-- **C10 witness.** The theorem applied to the key
`{_id: "507f1f77bcf86cd799439011"}`: the delete filter carries the typed
object-id. -/
theorem C10_filter_objectid_witness :
    writerDelete (.obj [("_id", .str "507f1f77bcf86cd799439011")]) =
      .ok (.deleteOne [("_id",
        .objectId [80, 127, 31, 119, 188, 248, 108, 215, 153, 67, 144, 17])]) ∧
    ("_id", BVal.objectId [80, 127, 31, 119, 188, 248, 108, 215, 153, 67, 144, 17]) ∈
      bsonEncodeDoc [("_id", Json.str "507f1f77bcf86cd799439011")] := by
  have h := C10_filter_objectid [("_id", .str "507f1f77bcf86cd799439011")]
  exact ⟨h.2.1, h.2.2 "_id" "507f1f77bcf86cd799439011" _ (by simp) (by rfl)⟩

end Mongo
